import Mathlib

/-!
Verification of the FinanceY retrieval subsystem against its design spec.

We shallowly embed the Python sources:
  * `backend/rag/utils.py` — `chunk_text_by_tokens`, `get_embeddings`;
  * `backend/rag/retriever.py` — class `RAGRetriever` (`build_index`,
    `add_documents`, `retrieve`, `save`, `load`).

Tokenisation (tiktoken) is external: chunking is modelled directly on the
token sequence (`List Nat` of token ids), exactly mirroring the index
arithmetic of the Python loop.  The FAISS `IndexFlatL2` is external too: it
is modelled as the list of inserted vectors, with `search` as exact
brute-force squared-Euclidean top-k (what `IndexFlatL2` computes), over
exact rationals in place of float32.  The filesystem at one base path is
modelled as the pair of companion artifacts (`.faiss` file, `.pkl` file).
-/

namespace FinanceY

/-! ### Chunker (`backend/rag/utils.py`, `chunk_text_by_tokens`)

The Python loop is

    start_idx = 0
    while start_idx < len(tokens):
        end_idx = min(start_idx + chunk_size, len(tokens))
        chunks.append(tokens[start_idx:end_idx])
        start_idx += chunk_size - overlap
        if start_idx >= len(tokens): break

The trailing `break` merely restates the `while` guard, so each iteration
appends `(tokens.drop start).take chunk_size` and advances `start` by
`chunk_size - overlap`.  `chunkLoopFuel` is the loop itself, instrumented
with fuel so that non-termination is expressible (`none` = the loop has not
finished within `fuel` iterations). -/

def chunkLoopFuel (tokens : List Nat) (chunk_size overlap : Nat) :
    Nat → Nat → Option (List (List Nat))
  | 0, _ => none
  | fuel + 1, start =>
    if start < tokens.length then
      match chunkLoopFuel tokens chunk_size overlap fuel
          (start + (chunk_size - overlap)) with
      | some rest => some (((tokens.drop start).take chunk_size) :: rest)
      | none => none
    else
      some []

/-- The same loop as a total function, available when `overlap < chunk_size`
(then the stride `chunk_size - overlap` is at least 1, so the loop
terminates). -/
def chunkLoop (chunk_size overlap : Nat) (hov : overlap < chunk_size)
    (tokens : List Nat) (start : Nat) : List (List Nat) :=
  if _h : start < tokens.length then
    ((tokens.drop start).take chunk_size) ::
      chunkLoop chunk_size overlap hov tokens (start + (chunk_size - overlap))
  else
    []
termination_by tokens.length - start
decreasing_by omega

/-- `chunk_text_by_tokens`, at the token level: the whole loop started at
index 0 (defined for the terminating case `overlap < chunk_size`). -/
def chunk_text_by_tokens (tokens : List Nat) (chunk_size overlap : Nat)
    (hov : overlap < chunk_size) : List (List Nat) :=
  chunkLoop chunk_size overlap hov tokens 0

/-- Re-concatenation of chunks with the first `overlap` tokens removed from
every chunk but the first (the round-trip operation of the spec). -/
def dropOverlapConcat (overlap : Nat) : List (List Nat) → List Nat
  | [] => []
  | c :: cs => c ++ (cs.map (List.drop overlap)).flatten

lemma chunkLoop_stop (chunk_size overlap : Nat) (hov : overlap < chunk_size)
    (tokens : List Nat) (start : Nat) (h : ¬ start < tokens.length) :
    chunkLoop chunk_size overlap hov tokens start = [] := by
  rw [chunkLoop]
  simp [h]

lemma chunkLoop_step (chunk_size overlap : Nat) (hov : overlap < chunk_size)
    (tokens : List Nat) (start : Nat) (h : start < tokens.length) :
    chunkLoop chunk_size overlap hov tokens start =
      ((tokens.drop start).take chunk_size) ::
        chunkLoop chunk_size overlap hov tokens
          (start + (chunk_size - overlap)) := by
  rw [chunkLoop]
  simp [h]

/-- With enough fuel, the fuelled loop computes exactly the total function
`chunkLoop` whenever `overlap < chunk_size`: the two models agree on the
terminating case. -/
lemma chunkLoopFuel_eq_chunkLoop (chunk_size overlap : Nat)
    (hov : overlap < chunk_size) (tokens : List Nat) :
    ∀ fuel start, tokens.length - start < fuel →
      chunkLoopFuel tokens chunk_size overlap fuel start =
        some (chunkLoop chunk_size overlap hov tokens start) := by
  intro fuel
  induction fuel with
  | zero => omega
  | succ n ih =>
    intro start hfuel
    by_cases h : start < tokens.length
    · rw [chunkLoop_step chunk_size overlap hov tokens start h]
      have hrec := ih (start + (chunk_size - overlap)) (by omega)
      simp only [chunkLoopFuel, h, if_pos, hrec]
    · rw [chunkLoop_stop chunk_size overlap hov tokens start h]
      simp only [chunkLoopFuel, h, if_neg, not_false_iff]

/-- When the stride `chunk_size - overlap` is zero (i.e. `overlap >=
chunk_size`), the loop never advances past a start index inside the token
sequence: no amount of fuel finishes it. -/
lemma chunkLoopFuel_none_of_le (tokens : List Nat) (chunk_size overlap : Nat)
    (hle : chunk_size ≤ overlap) (start : Nat) (hs : start < tokens.length) :
    ∀ fuel, chunkLoopFuel tokens chunk_size overlap fuel start = none := by
  intro fuel
  induction fuel with
  | zero => rfl
  | succ n ih =>
    have hz : chunk_size - overlap = 0 := Nat.sub_eq_zero_of_le hle
    simp only [chunkLoopFuel, hs, if_pos, hz, Nat.add_zero, ih]

/-- C1: the spec claims token-based chunking terminates for every
`chunk_size >= 1` because the stride is clamped to at least 1 when
`overlap >= chunk_size`.  The code has no such clamp: with one token,
`chunk_size = 1` and `overlap = 1` the start index never advances
(`start_idx += chunk_size - overlap` adds 0 and the guarding `break` never
fires), so for every fuel bound the loop has not terminated. -/
theorem chunk_text_by_tokens_loops_forever_when_overlap_eq_chunk_size :
    ∀ fuel, chunkLoopFuel [7] 1 1 fuel 0 = none :=
  chunkLoopFuel_none_of_le [7] 1 1 (Nat.le_refl 1) 0 (by decide)

lemma take_drop_append (l : List Nat) (i d : Nat) :
    (l.drop i).take d ++ l.drop (i + d) = l.drop i := by
  rw [← List.drop_drop d i l]
  exact List.take_append_drop d (l.drop i)

lemma flatten_drop_chunkLoop (chunk_size overlap : Nat)
    (hov : overlap < chunk_size) (tokens : List Nat) :
    ∀ start,
      ((chunkLoop chunk_size overlap hov tokens start).map
          (List.drop overlap)).flatten = tokens.drop (start + overlap) := by
  have main : ∀ n start, tokens.length - start ≤ n →
      ((chunkLoop chunk_size overlap hov tokens start).map
          (List.drop overlap)).flatten = tokens.drop (start + overlap) := by
    intro n
    induction n with
    | zero =>
      intro start hstart
      have h : ¬ start < tokens.length := by omega
      rw [chunkLoop_stop chunk_size overlap hov tokens start h]
      have : tokens.length ≤ start + overlap := by omega
      simp [List.drop_eq_nil_of_le this]
    | succ n ih =>
      intro start hstart
      by_cases h : start < tokens.length
      · rw [chunkLoop_step chunk_size overlap hov tokens start h]
        have hrec := ih (start + (chunk_size - overlap)) (by omega)
        simp only [List.map_cons, List.flatten_cons, hrec, List.drop_take,
          List.drop_drop]
        have h2 : start + (chunk_size - overlap) + overlap
            = (start + overlap) + (chunk_size - overlap) := by omega
        rw [h2]
        exact take_drop_append tokens (start + overlap) (chunk_size - overlap)
      · rw [chunkLoop_stop chunk_size overlap hov tokens start h]
        have : tokens.length ≤ start + overlap := by omega
        simp [List.drop_eq_nil_of_le this]
  intro start
  exact main (tokens.length - start) start (Nat.le_refl _)

/-- C3: for `overlap < chunk_size`, concatenating the chunks' token
sequences after removing the first `overlap` tokens from every chunk but
the first reconstructs the input token sequence exactly. -/
theorem chunk_text_by_tokens_roundtrip (tokens : List Nat)
    (chunk_size overlap : Nat) (hov : overlap < chunk_size) :
    dropOverlapConcat overlap
      (chunk_text_by_tokens tokens chunk_size overlap hov) = tokens := by
  unfold chunk_text_by_tokens
  by_cases h : 0 < tokens.length
  · rw [chunkLoop_step chunk_size overlap hov tokens 0 h]
    simp only [dropOverlapConcat]
    rw [flatten_drop_chunkLoop chunk_size overlap hov tokens]
    have hco : 0 + (chunk_size - overlap) + overlap = chunk_size := by omega
    rw [hco]
    simp [List.take_append_drop chunk_size tokens]
  · rw [chunkLoop_stop chunk_size overlap hov tokens 0 h]
    have : tokens = [] := by
      cases tokens with
      | nil => rfl
      | cons a l => simp at h
    simp [dropOverlapConcat, this]

/-- Witness for C3 at a concrete input: chunking `[10, 20, 30]` with
`chunk_size = 2`, `overlap = 1` round-trips. -/
theorem chunk_text_by_tokens_roundtrip_witness :
    1 < 2 ∧ dropOverlapConcat 1
      (chunk_text_by_tokens [10, 20, 30] 2 1 (by decide)) = [10, 20, 30] :=
  ⟨by decide, chunk_text_by_tokens_roundtrip [10, 20, 30] 2 1 (by decide)⟩

/-! ### Embedding gateway (`backend/rag/utils.py`, `get_embeddings`)

Errors are modelled as distinct constructors, one per raise site of the
Python function: the "API key not configured" `ValueError` (configuration),
the "quota exceeded" `ValueError` (quota), and any other re-raised provider
exception (provider, carrying its message).  The external OpenAI client is
a parameter `provider` mapping one batch of texts either to vectors or to
an exception message. -/

inductive EmbedError where
  | configuration (msg : String)
  | quotaExceeded (msg : String)
  | provider (msg : String)
deriving DecidableEq, Repr

/-- The message of the `ValueError` raised when no API key is set. -/
def apiKeyMissingMsg : String :=
  "OpenAI API key not configured. Please set OPENAI_API_KEY in .env file"

/-- Python `str.strip()`: remove leading and trailing whitespace. -/
def strip (s : String) : String :=
  ⟨(((s.data.dropWhile Char.isWhitespace).reverse).dropWhile
      Char.isWhitespace).reverse⟩

/-- The quota test of `get_embeddings`:
`'quota' in s.lower() or 'insufficient_quota' in s.lower() or
'exceeded' in s.lower()`, with Python `in` as substring containment on the
character sequence. -/
def isQuotaMessage (error_str : String) : Bool :=
  decide ("quota".data <:+: error_str.toLower.data) ||
    decide ("insufficient_quota".data <:+: error_str.toLower.data) ||
    decide ("exceeded".data <:+: error_str.toLower.data)

/-- The `except` clause of `get_embeddings`: a quota-looking message is
re-raised as the quota `ValueError` (whose message wraps the original with
billing guidance); anything else is re-raised unchanged. -/
def classifyProviderError (error_str : String) : EmbedError :=
  if isQuotaMessage error_str then
    .quotaExceeded ("OpenAI API quota exceeded. Please check your billing. Error: "
      ++ error_str)
  else
    .provider error_str

/-- The batching loop `for i in range(0, len(texts), 100)`: each batch of
up to 100 texts is sent to the provider, results are concatenated in
order; the first provider exception aborts the loop. -/
def embedBatchesLoop (provider : List String → Except String (List (List Rat))) :
    List String → Except String (List (List Rat))
  | [] => .ok []
  | t :: ts =>
    match provider ((t :: ts).take 100) with
    | .error m => .error m
    | .ok b =>
      match embedBatchesLoop provider ((t :: ts).drop 100) with
      | .error m => .error m
      | .ok rest => .ok (b ++ rest)
termination_by ts => ts.length
decreasing_by simp; omega

/-- `get_embeddings`: checks the configured key (`not api_key or not
api_key.strip()` — absent, empty, or all-whitespace), then runs the batch
loop, classifying any provider exception. -/
def get_embeddings (api_key : Option String)
    (provider : List String → Except String (List (List Rat)))
    (texts : List String) : Except EmbedError (List (List Rat)) :=
  match api_key with
  | none => .error (.configuration apiKeyMissingMsg)
  | some key =>
    if strip key = "" then .error (.configuration apiKeyMissingMsg)
    else
      match embedBatchesLoop provider texts with
      | .ok es => .ok es
      | .error m => .error (classifyProviderError m)

/-! ### Vector index (`backend/rag/retriever.py`, class `RAGRetriever`)

The FAISS `IndexFlatL2` is modelled as the list of inserted vectors (in
insertion order); `index = none` is Python's `self.index is None`.
Metadata mappings are association lists, the empty mapping `{}` being
`[]`.  float32 values are modelled as exact rationals. -/

abbrev Meta := List (String × String)

structure RAGRetriever where
  index : Option (List (List Rat))
  documents : List String
  metadata : List Meta
  dimension : Nat
deriving DecidableEq, Repr

inductive RetrieverError where
  | emptyInput (msg : String)
  | notFound (msg : String)
deriving DecidableEq, Repr

/-- `settings.embedding_dimension` default (`backend/config.py`). -/
def embeddingDimensionDefault : Nat := 1536

/-- `__init__`: no index, empty side-table, default dimension. -/
def RAGRetriever.init : RAGRetriever :=
  { index := none, documents := [], metadata := [],
    dimension := embeddingDimensionDefault }

/-- `build_index`: rejects empty embeddings, sets the dimension from the
embedding matrix's second shape component (the first vector's length),
replaces the index and documents, and takes the supplied metadata if it is
truthy (non-`None` and non-empty), else `[{}] * len(documents)`; a
length-mismatched metadata list is then replaced by `[{}] *
len(documents)` wholesale. -/
def build_index (_r : RAGRetriever) (embeddings : List (List Rat))
    (documents : List String) (metadata : Option (List Meta)) :
    Except RetrieverError RAGRetriever :=
  if embeddings.length = 0 then
    .error (.emptyInput "Cannot build index with empty embeddings")
  else
    let dimension := (embeddings.headD []).length
    let md0 := match metadata with
      | some m => if m.isEmpty then List.replicate documents.length [] else m
      | none => List.replicate documents.length []
    let md := if md0.length ≠ documents.length then
        List.replicate documents.length [] else md0
    .ok { index := some embeddings, documents := documents,
          metadata := md, dimension := dimension }

/-- `add_documents`: with no index, delegates to `build_index`; otherwise
appends the embeddings to the FAISS index and the documents to the
side-table, extending metadata by the supplied list if truthy, else by
`[{}] * len(documents)`. -/
def add_documents (r : RAGRetriever) (embeddings : List (List Rat))
    (documents : List String) (metadata : Option (List Meta)) :
    Except RetrieverError RAGRetriever :=
  match r.index with
  | none => build_index r embeddings documents metadata
  | some vs =>
    .ok { r with
          index := some (vs ++ embeddings),
          documents := r.documents ++ documents,
          metadata := r.metadata ++ (match metadata with
            | some m => if m.isEmpty then List.replicate documents.length [] else m
            | none => List.replicate documents.length []) }

/-- Squared Euclidean distance, the metric `IndexFlatL2` computes. -/
def sqDist (q v : List Rat) : Rat :=
  (List.zipWith (fun a b => (a - b) * (a - b)) q v).sum

/-- Comparison by distance, the order `IndexFlatL2.search` returns hits
in. -/
def distLE (a b : Nat × Rat) : Bool := decide (a.2 ≤ b.2)

/-- The distance from the query to every stored vector, by stored
position. -/
def searchBase (vs : List (List Rat)) (q : List Rat) : List (Nat × Rat) :=
  (List.range vs.length).map fun i => (i, sqDist q (vs.getD i []))

/-- `IndexFlatL2.search`: exact brute-force — the distance from the query
to every stored vector, sorted ascending (stably, so ties keep insertion
order), truncated to `k` hits of (stored position, distance). -/
def faissSearch (vs : List (List Rat)) (q : List Rat) (k : Nat) :
    List (Nat × Rat) :=
  ((searchBase vs q).mergeSort distLE).take k

structure SearchResult where
  text : String
  metadata : Meta
  distance : Rat
deriving DecidableEq, Repr

/-- `retrieve`: empty result on a missing index or empty document list;
otherwise `k` is clamped to `len(documents)`, the index is searched, and
each hit with a position inside the document list becomes a
`{text, metadata, distance}` record (a position beyond the metadata list
yields the empty mapping). -/
def retrieve (r : RAGRetriever) (query_embedding : List Rat) (k : Nat) :
    List SearchResult :=
  match r.index with
  | none => []
  | some vs =>
    if r.documents.length = 0 then []
    else
      (faissSearch vs query_embedding (min k r.documents.length)).filterMap
        fun p =>
          if p.1 < r.documents.length then
            some { text := r.documents.getD p.1 "",
                   metadata := if p.1 < r.metadata.length then
                       r.metadata.getD p.1 [] else [],
                   distance := p.2 }
          else none

/-- The serialized side-table (`pickle` payload written by `save`): the
`documents` key is always read with `data["documents"]`, while `metadata`
and `dimension` are read with `data.get`, hence optional here. -/
structure PklData where
  documents : List String
  metadata : Option (List Meta)
  dimension : Option Nat
deriving DecidableEq, Repr

/-- The filesystem at one base path: the two companion artifacts
`<path>.faiss` and `<path>.pkl`, each possibly absent. -/
structure FS where
  faissFile : Option (List (List Rat))
  pklFile : Option PklData
deriving DecidableEq, Repr

/-- `save`: writes the FAISS file only when an index exists (a pre-existing
file at the path is otherwise left as is), and always writes the pickle
side-table with all three keys. -/
def save (r : RAGRetriever) (fs : FS) : FS :=
  { faissFile := match r.index with
      | some vs => some vs
      | none => fs.faissFile,
    pklFile := some { documents := r.documents,
                      metadata := some r.metadata,
                      dimension := some r.dimension } }

/-- `load`: raises `FileNotFoundError` unless both companion files exist;
otherwise replaces the index and side-table, defaulting an absent
`metadata` key to `[{}] * len(documents)` and an absent `dimension` key to
`settings.embedding_dimension`. -/
def load (fs : FS) (_r : RAGRetriever) : Except RetrieverError RAGRetriever :=
  match fs.faissFile, fs.pklFile with
  | some vs, some data =>
    .ok { index := some vs,
          documents := data.documents,
          metadata := data.metadata.getD
            (List.replicate data.documents.length []),
          dimension := data.dimension.getD embeddingDimensionDefault }
  | _, _ => .error (.notFound "Index files not found")

/-! ### Theorems about the vector index and the embedding gateway -/

/-- C6: `retrieve` on an uninitialized index (`self.index is None`) or an
index with zero stored documents returns the empty list, for every query
vector and every `k`; the function is total, so no error is raised. -/
theorem retrieve_empty_returns_nil (r : RAGRetriever) (q : List Rat) (k : Nat)
    (h : r.index = none ∨ r.documents = []) : retrieve r q k = [] := by
  rcases h with h | h
  · simp only [retrieve, h]
  · cases hi : r.index with
    | none => simp only [retrieve, hi]
    | some vs => simp [retrieve, hi, h]

/-- Witness for C6: a freshly constructed retriever yields no results. -/
theorem retrieve_empty_returns_nil_witness :
    (RAGRetriever.init.index = none ∨ RAGRetriever.init.documents = []) ∧
      retrieve RAGRetriever.init [1, 2] 5 = [] :=
  ⟨Or.inl rfl, retrieve_empty_returns_nil RAGRetriever.init [1, 2] 5 (Or.inl rfl)⟩

/-- C7: `load` raises `FileNotFoundError` whenever either companion
artifact (the `.faiss` index file or the `.pkl` side-table) is missing. -/
theorem load_fails_when_artifact_missing (fs : FS) (r : RAGRetriever)
    (h : fs.faissFile = none ∨ fs.pklFile = none) :
    load fs r = .error (.notFound "Index files not found") := by
  unfold load
  rcases h with h | h
  · rw [h]
  · rw [h]
    cases fs.faissFile <;> rfl

/-- Witness for C7, at the spec's scenario: a path holding only the
side-table file (index file missing) fails to load. -/
theorem load_fails_when_artifact_missing_witness :
    ((FS.mk none (some ⟨["d"], some [[]], some 4⟩)).faissFile = none ∨
      (FS.mk none (some ⟨["d"], some [[]], some 4⟩)).pklFile = none) ∧
    load (FS.mk none (some ⟨["d"], some [[]], some 4⟩)) RAGRetriever.init =
      .error (.notFound "Index files not found") :=
  ⟨Or.inl rfl,
    load_fails_when_artifact_missing _ RAGRetriever.init (Or.inl rfl)⟩

/-- C10: `save` on a retriever whose index was never built writes only the
side-table: the `.faiss` file is not created (at a fresh path it stays
absent) while the `.pkl` file is written, and a subsequent `load` from
that path fails with `FileNotFoundError` even though `save` succeeded. -/
theorem save_without_index_breaks_load (r r2 : RAGRetriever)
    (h : r.index = none) :
    (save r ⟨none, none⟩).faissFile = none ∧
    (save r ⟨none, none⟩).pklFile =
      some ⟨r.documents, some r.metadata, some r.dimension⟩ ∧
    load (save r ⟨none, none⟩) r2 =
      .error (.notFound "Index files not found") := by
  refine ⟨?_, rfl, ?_⟩
  · simp [save, h]
  · apply load_fails_when_artifact_missing
    left
    simp [save, h]

/-- Witness for C10: saving a fresh retriever to an empty path, then
loading, fails. -/
theorem save_without_index_breaks_load_witness :
    RAGRetriever.init.index = none ∧
    ((save RAGRetriever.init ⟨none, none⟩).faissFile = none ∧
     (save RAGRetriever.init ⟨none, none⟩).pklFile =
       some ⟨RAGRetriever.init.documents, some RAGRetriever.init.metadata,
         some RAGRetriever.init.dimension⟩ ∧
     load (save RAGRetriever.init ⟨none, none⟩) RAGRetriever.init =
       .error (.notFound "Index files not found")) :=
  ⟨rfl, save_without_index_breaks_load RAGRetriever.init RAGRetriever.init rfl⟩

/-- C9: with no valid credential (key absent, empty, or whitespace-only),
`get_embeddings` raises the configuration `ValueError`; the result is the
same for every provider, so no network interaction can have occurred, and
the error's constructor differs from both provider-failure constructors. -/
theorem get_embeddings_config_error (api_key : Option String)
    (provider provider2 : List String → Except String (List (List Rat)))
    (texts : List String)
    (h : api_key = none ∨ ∃ k, api_key = some k ∧ strip k = "") :
    get_embeddings api_key provider texts =
      .error (.configuration apiKeyMissingMsg) ∧
    get_embeddings api_key provider texts =
      get_embeddings api_key provider2 texts ∧
    (∀ s, EmbedError.configuration apiKeyMissingMsg ≠ .provider s) ∧
    (∀ s, EmbedError.configuration apiKeyMissingMsg ≠ .quotaExceeded s) := by
  refine ⟨?_, ?_, fun s hs => EmbedError.noConfusion hs,
    fun s hs => EmbedError.noConfusion hs⟩
  · rcases h with h | ⟨key, hk, ht⟩
    · simp [get_embeddings, h]
    · simp [get_embeddings, hk, ht]
  · rcases h with h | ⟨key, hk, ht⟩
    · simp [get_embeddings, h]
    · simp [get_embeddings, hk, ht]

/-- Witness for C9: no key configured, two different providers (one that
would succeed, one that would fail). -/
theorem get_embeddings_config_error_witness :
    ((none : Option String) = none ∨
      ∃ k, (none : Option String) = some k ∧ strip k = "") ∧
    (get_embeddings none (fun _ => .ok [[1]]) ["a"] =
        .error (.configuration apiKeyMissingMsg) ∧
     get_embeddings none (fun _ => .ok [[1]]) ["a"] =
        get_embeddings none (fun _ => .error "boom") ["a"] ∧
     (∀ s, EmbedError.configuration apiKeyMissingMsg ≠ .provider s) ∧
     (∀ s, EmbedError.configuration apiKeyMissingMsg ≠ .quotaExceeded s)) :=
  ⟨Or.inl rfl,
    get_embeddings_config_error none (fun _ => .ok [[1]])
      (fun _ => .error "boom") ["a"] (Or.inl rfl)⟩

/-- C8: when the credential check passes and a provider exception aborts
the batch loop, `get_embeddings` raises the quota `ValueError` exactly when
the exception's message contains, case-insensitively, one of the
substrings `quota`, `insufficient_quota`, `exceeded`; any other provider
exception is re-raised as is, and neither outcome is the configuration
error. -/
theorem get_embeddings_quota_classification (key : String)
    (provider : List String → Except String (List (List Rat)))
    (texts : List String) (e : EmbedError)
    (hkey : ¬ strip key = "")
    (h : get_embeddings (some key) provider texts = .error e) :
    ∃ m, embedBatchesLoop provider texts = .error m ∧
      e = classifyProviderError m ∧
      ((∃ s, e = .quotaExceeded s) ↔ isQuotaMessage m = true) ∧
      (isQuotaMessage m = false → e = .provider m) ∧
      (∀ s, e ≠ .configuration s) := by
  simp only [get_embeddings] at h
  rw [if_neg hkey] at h
  cases heb : embedBatchesLoop provider texts with
  | ok es => rw [heb] at h; exact absurd h (by simp)
  | error m =>
    rw [heb] at h
    have he : e = classifyProviderError m := by
      injection h with h2
      exact h2.symm
    subst he
    refine ⟨m, rfl, rfl, ?_, ?_, ?_⟩
    · constructor
      · intro ⟨s, hs⟩
        by_cases hq : isQuotaMessage m
        · exact hq
        · simp [classifyProviderError, hq] at hs
      · intro hq
        refine ⟨"OpenAI API quota exceeded. Please check your billing. Error: "
          ++ m, ?_⟩
        simp [classifyProviderError, hq]
    · intro hq
      simp [classifyProviderError, hq]
    · intro s hs
      by_cases hq : isQuotaMessage m <;>
        simp [classifyProviderError, hq] at hs

/-- Witness for C8: a single-batch call whose provider raises a rate-limit
message containing `exceeded` — the result is the quota error, while the
message `connection reset` would not qualify. -/
theorem get_embeddings_quota_classification_witness :
    (¬ strip "sk-test" = "") ∧
    (∃ m, embedBatchesLoop (fun _ => .error "Rate limit EXCEEDED") ["t"] =
        .error m ∧
      classifyProviderError "Rate limit EXCEEDED" = classifyProviderError m ∧
      ((∃ s, classifyProviderError "Rate limit EXCEEDED" = .quotaExceeded s) ↔
        isQuotaMessage m = true) ∧
      (isQuotaMessage m = false →
        classifyProviderError "Rate limit EXCEEDED" = .provider m) ∧
      (∀ s, classifyProviderError "Rate limit EXCEEDED" ≠ .configuration s)) := by
  refine ⟨by decide, ?_⟩
  apply get_embeddings_quota_classification "sk-test"
    (fun _ => .error "Rate limit EXCEEDED") ["t"]
    (classifyProviderError "Rate limit EXCEEDED") (by decide)
  simp only [get_embeddings, embedBatchesLoop]
  rw [if_neg (by decide)]

/-- The number of vectors stored in the FAISS index (`index.ntotal`; 0 when
no index was built). -/
def storedCount (r : RAGRetriever) : Nat :=
  match r.index with
  | some vs => vs.length
  | none => 0

/-- The spec's index invariant `len(vectors) == len(texts) ==
len(metadata)`. -/
def lengthInvariant (r : RAGRetriever) : Prop :=
  storedCount r = r.documents.length ∧
    r.documents.length = r.metadata.length

/-- C2 counterexample: `add_documents` on a built index, with a supplied
metadata list (1 entry) shorter than the documents list (2 entries),
extends metadata by exactly the supplied entries: the resulting metadata
list has 2 entries against 3 documents — not padded to the document
count, so the invariant is broken. -/
theorem add_documents_shorter_metadata_not_padded :
    build_index RAGRetriever.init [[1]] ["d0"] none =
      .ok ⟨some [[1]], ["d0"], [[]], 1⟩ ∧
    add_documents ⟨some [[1]], ["d0"], [[]], 1⟩ [[2], [3]] ["d1", "d2"]
        (some [[("source", "x")]]) =
      .ok ⟨some [[1], [2], [3]], ["d0", "d1", "d2"],
        [[], [("source", "x")]], 1⟩ ∧
    ¬ ([[], [("source", "x")]] : List Meta).length =
      (["d0", "d1", "d2"] : List String).length :=
  ⟨rfl, rfl, by decide⟩

lemma build_index_length_invariant (r : RAGRetriever)
    (emb : List (List Rat)) (docs : List String) (md : Option (List Meta))
    (r' : RAGRetriever) (hlen : emb.length = docs.length)
    (h : build_index r emb docs md = .ok r') : lengthInvariant r' := by
  unfold build_index at h
  by_cases hz : emb.length = 0
  · rw [if_pos hz] at h
    exact absurd h (by simp)
  · rw [if_neg hz] at h
    injection h with h1
    subst h1
    simp only [lengthInvariant, storedCount]
    refine ⟨hlen, ?_⟩
    split_ifs with hcond
    · simp
    · omega

/-- C2 amended: the invariant `len(vectors) == len(texts) ==
len(metadata)` is established by `build_index` whenever the embeddings and
documents counts agree (a missing, empty, or length-mismatched metadata
list is replaced by empty mappings); it is preserved by `add_documents`
when additionally the supplied metadata is absent, empty, or exactly
matches the new documents count (a shorter non-empty list is appended
unpadded, breaking the invariant); and it is restored by `load` when the
stored index has as many vectors as the side-table has documents and the
side-table's metadata record is absent (then padded with empty mappings)
or of matching length (a present record is restored unchanged, so a
length violation in it is not repaired). -/
theorem length_invariant_preservation :
    (∀ r emb docs md r', emb.length = docs.length →
      build_index r emb docs md = .ok r' → lengthInvariant r') ∧
    (∀ r emb docs md r', lengthInvariant r → emb.length = docs.length →
      (md = none ∨ md = some [] ∨
        (∃ m, md = some m ∧ m.length = docs.length)) →
      add_documents r emb docs md = .ok r' → lengthInvariant r') ∧
    (∀ fs vs data r r', fs.faissFile = some vs → fs.pklFile = some data →
      vs.length = data.documents.length →
      (data.metadata = none ∨
        (∃ m, data.metadata = some m ∧ m.length = data.documents.length)) →
      load fs r = .ok r' → lengthInvariant r') := by
  refine ⟨build_index_length_invariant, ?_, ?_⟩
  · intro r emb docs md r' hinv hlen hmd h
    unfold add_documents at h
    cases hi : r.index with
    | none =>
      rw [hi] at h
      exact build_index_length_invariant r emb docs md r' hlen h
    | some vs =>
      rw [hi] at h
      injection h with h1
      subst h1
      obtain ⟨hinv1, hinv2⟩ := hinv
      have hvs : vs.length = r.documents.length := by
        simpa [storedCount, hi] using hinv1
      have hext : (match md with
          | some m => if m.isEmpty then List.replicate docs.length ([] : Meta)
              else m
          | none => List.replicate docs.length ([] : Meta)).length
          = docs.length := by
        rcases hmd with h | h | ⟨m, hm, hml⟩
        · simp [h]
        · simp [h]
        · subst hm
          rcases m with _ | ⟨p, m'⟩
          · simp
          · simp [hml]
      simp only [lengthInvariant, storedCount, List.length_append, hext]
      omega
  · intro fs vs data r r' hfa hpk hlen hmd h
    unfold load at h
    rw [hfa, hpk] at h
    injection h with h1
    subst h1
    simp only [lengthInvariant, storedCount]
    refine ⟨hlen, ?_⟩
    rcases hmd with h | ⟨m, hm, hml⟩
    · simp [h]
    · simp [hm]
      omega

/-- Witness for the amended C2: `build_index` with a length-mismatched
metadata list replaces it and establishes the invariant. -/
theorem length_invariant_preservation_witness :
    (([[(1 : Rat)], [2]] : List (List Rat)).length =
        (["a", "b"] : List String).length ∧
      build_index RAGRetriever.init [[1], [2]] ["a", "b"]
          (some [[("k", "v")]]) =
        .ok ⟨some [[1], [2]], ["a", "b"], [[], []], 1⟩) ∧
    lengthInvariant ⟨some [[1], [2]], ["a", "b"], [[], []], 1⟩ :=
  ⟨⟨by decide, rfl⟩,
    length_invariant_preservation.1 RAGRetriever.init [[1], [2]] ["a", "b"]
      (some [[("k", "v")]]) ⟨some [[1], [2]], ["a", "b"], [[], []], 1⟩
      (by decide) rfl⟩

/-- C5: build, then `save`, then `load` into a fresh retriever, then
`retrieve(q, k)` gives results identical to `retrieve(q, k)` on the
original retriever, for every query and every `k` up to the stored count:
the reloaded state is field-for-field the saved one. -/
theorem save_load_roundtrip (r0 fresh : RAGRetriever) (fs : FS)
    (emb : List (List Rat)) (docs : List String) (md : Option (List Meta))
    (r r' : RAGRetriever) (q : List Rat) (k : Nat)
    (hb : build_index r0 emb docs md = .ok r)
    (hl : load (save r fs) fresh = .ok r')
    (_hk : k ≤ r.documents.length) :
    retrieve r' q k = retrieve r q k := by
  unfold build_index at hb
  by_cases hz : emb.length = 0
  · rw [if_pos hz] at hb
    exact absurd hb (by simp)
  · rw [if_neg hz] at hb
    injection hb with hb1
    subst hb1
    simp only [save, load] at hl
    injection hl with hl1
    subst hl1
    rfl

/-- Witness for C5 at a concrete two-vector index. -/
theorem save_load_roundtrip_witness :
    (build_index RAGRetriever.init [[1, 0], [0, 1]] ["a", "b"] none =
        .ok ⟨some [[1, 0], [0, 1]], ["a", "b"], [[], []], 2⟩ ∧
      load (save ⟨some [[1, 0], [0, 1]], ["a", "b"], [[], []], 2⟩
          ⟨none, none⟩) RAGRetriever.init =
        .ok ⟨some [[1, 0], [0, 1]], ["a", "b"], [[], []], 2⟩ ∧
      1 ≤ (⟨some [[1, 0], [0, 1]], ["a", "b"], [[], []], 2⟩ :
        RAGRetriever).documents.length) ∧
    retrieve ⟨some [[1, 0], [0, 1]], ["a", "b"], [[], []], 2⟩ [1, 0] 1 =
      retrieve ⟨some [[1, 0], [0, 1]], ["a", "b"], [[], []], 2⟩ [1, 0] 1 :=
  ⟨⟨rfl, rfl, by decide⟩,
    save_load_roundtrip RAGRetriever.init RAGRetriever.init ⟨none, none⟩
      [[1, 0], [0, 1]] ["a", "b"] none
      ⟨some [[1, 0], [0, 1]], ["a", "b"], [[], []], 2⟩
      ⟨some [[1, 0], [0, 1]], ["a", "b"], [[], []], 2⟩
      [1, 0] 1 rfl rfl (by decide)⟩

lemma sqDist_nonneg (q v : List Rat) : 0 ≤ sqDist q v := by
  induction q generalizing v with
  | nil => simp [sqDist]
  | cons a q ih =>
    cases v with
    | nil => simp [sqDist]
    | cons b v =>
      simp only [sqDist, List.zipWith_cons_cons, List.sum_cons]
      have h2 : 0 ≤ sqDist q v := ih v
      simp only [sqDist] at h2
      exact add_nonneg (mul_self_nonneg _) h2

lemma sqDist_self (q : List Rat) : sqDist q q = 0 := by
  induction q with
  | nil => simp [sqDist]
  | cons a q ih =>
    simp only [sqDist, List.zipWith_cons_cons, List.sum_cons, sub_self,
      zero_mul, zero_add]
    exact ih

lemma distLE_trans (a b c : Nat × Rat) (hab : distLE a b = true)
    (hbc : distLE b c = true) : distLE a c = true := by
  simp only [distLE, decide_eq_true_eq] at hab hbc ⊢
  exact le_trans hab hbc

lemma distLE_total (a b : Nat × Rat) : (distLE a b || distLE b a) = true := by
  simp only [distLE, Bool.or_eq_true, decide_eq_true_eq]
  exact le_total a.2 b.2

lemma mem_searchBase {vs : List (List Rat)} {q : List Rat} {p : Nat × Rat}
    (hp : p ∈ searchBase vs q) :
    p.1 < vs.length ∧ p.2 = sqDist q (vs.getD p.1 []) := by
  obtain ⟨i, hi, rfl⟩ := List.mem_map.1 hp
  exact ⟨List.mem_range.1 hi, rfl⟩

lemma length_searchBase (vs : List (List Rat)) (q : List Rat) :
    (searchBase vs q).length = vs.length := by
  simp [searchBase]

lemma filterMap_if_lt_eq_map {β : Type} (n : Nat) (g : Nat × Rat → β) :
    ∀ l : List (Nat × Rat), (∀ p ∈ l, p.1 < n) →
      (l.filterMap fun p => if p.1 < n then some (g p) else none) =
        l.map g := by
  intro l
  induction l with
  | nil => intro _; rfl
  | cons p l ih =>
    intro hall
    have hp : p.1 < n := hall p (List.mem_cons_self p l)
    simp only [List.filterMap_cons, if_pos hp, List.map_cons]
    rw [ih fun x hx => hall x (List.mem_cons_of_mem p hx)]

/-- C4: on an index whose stored-vector count matches its (non-empty)
document list, `retrieve(q, k)` with `k >= 1` returns exactly
`min(k, n)` results; every result is a `{text, metadata, distance}`
record whose distance is the exact squared Euclidean distance from `q` to
the stored vector at some position `i`; results come sorted by
non-decreasing distance; and when `q` equals a stored vector the first
result's distance is 0. -/
theorem retrieve_topk_spec (r : RAGRetriever) (vs : List (List Rat))
    (q : List Rat) (k : Nat)
    (hidx : r.index = some vs)
    (hlen : vs.length = r.documents.length)
    (hn : 0 < r.documents.length)
    (hk : 1 ≤ k) :
    (retrieve r q k).length = min k r.documents.length ∧
    List.Pairwise (fun a b : SearchResult => a.distance ≤ b.distance)
      (retrieve r q k) ∧
    (∀ res ∈ retrieve r q k, ∃ i, i < vs.length ∧
      res.text = r.documents.getD i "" ∧
      res.metadata = (if i < r.metadata.length then r.metadata.getD i []
        else []) ∧
      res.distance = sqDist q (vs.getD i [])) ∧
    (q ∈ vs → ∀ res rest, retrieve r q k = res :: rest →
      res.distance = 0) := by
  have hret : retrieve r q k =
      (((searchBase vs q).mergeSort distLE).take
          (min k r.documents.length)).map
        (fun p => { text := r.documents.getD p.1 "",
                    metadata := if p.1 < r.metadata.length then
                        r.metadata.getD p.1 [] else [],
                    distance := p.2 }) := by
    have hne : ¬ r.documents.length = 0 := by omega
    simp only [retrieve, hidx, faissSearch]
    rw [if_neg hne]
    have hall : ∀ p ∈ ((searchBase vs q).mergeSort distLE).take
        (min k r.documents.length), p.1 < r.documents.length := by
      intro p hp
      have hpB := List.mem_mergeSort.1 (List.mem_of_mem_take hp)
      have := (mem_searchBase hpB).1
      omega
    exact filterMap_if_lt_eq_map r.documents.length _ _ hall
  have hSlen : ((searchBase vs q).mergeSort distLE).length = vs.length := by
    rw [(List.mergeSort_perm _ _).length_eq, length_searchBase]
  have hsorted := List.sorted_mergeSort distLE_trans distLE_total
    (searchBase vs q)
  refine ⟨?_, ?_, ?_, ?_⟩
  · rw [hret, List.length_map, List.length_take, hSlen, hlen]
    omega
  · rw [hret, List.pairwise_map]
    refine (List.Pairwise.sublist (List.take_sublist _ _) hsorted).imp ?_
    intro a b hab
    exact of_decide_eq_true hab
  · intro res hres
    rw [hret] at hres
    obtain ⟨p, hp, rfl⟩ := List.mem_map.1 hres
    have hpB := List.mem_mergeSort.1 (List.mem_of_mem_take hp)
    obtain ⟨h1, h2⟩ := mem_searchBase hpB
    exact ⟨p.1, h1, rfl, rfl, h2⟩
  · intro hq res rest' hcons
    rw [hret] at hcons
    obtain ⟨j, hj, hje⟩ := List.getElem_of_mem hq
    have hjB : (j, (0 : Rat)) ∈ searchBase vs q := by
      refine List.mem_map.2 ⟨j, List.mem_range.2 hj, ?_⟩
      rw [List.getD_eq_getElem vs [] hj, hje, sqDist_self]
    have hjS : (j, (0 : Rat)) ∈ (searchBase vs q).mergeSort distLE :=
      List.mem_mergeSort.2 hjB
    cases hS0 : (searchBase vs q).mergeSort distLE with
    | nil =>
      rw [hS0] at hjS
      exact absurd hjS (List.not_mem_nil _)
    | cons s0 S' =>
      rw [hS0] at hcons
      obtain ⟨k2, hk2⟩ : ∃ k2, min k r.documents.length = k2 + 1 :=
        ⟨min k r.documents.length - 1, by omega⟩
      rw [hk2, List.take_succ_cons, List.map_cons] at hcons
      injection hcons with hres hrest
      subst hres
      have hs0B : s0 ∈ searchBase vs q := List.mem_mergeSort.1
        (by rw [hS0]; exact List.mem_cons_self _ _)
      have h0le : 0 ≤ s0.2 := by
        rw [(mem_searchBase hs0B).2]
        exact sqDist_nonneg q _
      rw [hS0] at hsorted hjS
      have hle0 : s0.2 ≤ 0 := by
        rcases List.mem_cons.1 hjS with h | h
        · rw [← h]
        · exact of_decide_eq_true ((List.pairwise_cons.1 hsorted).1 (j, 0) h)
      show s0.2 = 0
      exact le_antisymm hle0 h0le

/-- Witness for C4, at the spec's scenario: three stored vectors with
distinct texts, query equal to vector 1 ("B"), `k = 2`. -/
theorem retrieve_topk_spec_witness :
    ((⟨some [[0, 0], [1, 0], [0, 2]], ["A", "B", "C"], [[], [], []], 2⟩ :
        RAGRetriever).index = some [[0, 0], [1, 0], [0, 2]] ∧
      ([[0, 0], [1, 0], [0, 2]] : List (List Rat)).length =
        (["A", "B", "C"] : List String).length ∧
      0 < (["A", "B", "C"] : List String).length ∧ 1 ≤ 2) ∧
    ((retrieve ⟨some [[0, 0], [1, 0], [0, 2]], ["A", "B", "C"],
        [[], [], []], 2⟩ [1, 0] 2).length =
      min 2 (⟨some [[0, 0], [1, 0], [0, 2]], ["A", "B", "C"],
        [[], [], []], 2⟩ : RAGRetriever).documents.length ∧
    List.Pairwise (fun a b : SearchResult => a.distance ≤ b.distance)
      (retrieve ⟨some [[0, 0], [1, 0], [0, 2]], ["A", "B", "C"],
        [[], [], []], 2⟩ [1, 0] 2) ∧
    (∀ res ∈ retrieve ⟨some [[0, 0], [1, 0], [0, 2]], ["A", "B", "C"],
        [[], [], []], 2⟩ [1, 0] 2, ∃ i,
      i < ([[0, 0], [1, 0], [0, 2]] : List (List Rat)).length ∧
      res.text = (⟨some [[0, 0], [1, 0], [0, 2]], ["A", "B", "C"],
        [[], [], []], 2⟩ : RAGRetriever).documents.getD i "" ∧
      res.metadata = (if i < (⟨some [[0, 0], [1, 0], [0, 2]],
          ["A", "B", "C"], [[], [], []], 2⟩ : RAGRetriever).metadata.length
        then (⟨some [[0, 0], [1, 0], [0, 2]], ["A", "B", "C"],
          [[], [], []], 2⟩ : RAGRetriever).metadata.getD i [] else []) ∧
      res.distance = sqDist [1, 0]
        (([[0, 0], [1, 0], [0, 2]] : List (List Rat)).getD i [])) ∧
    (([1, 0] : List Rat) ∈ ([[0, 0], [1, 0], [0, 2]] : List (List Rat)) →
      ∀ res rest, retrieve ⟨some [[0, 0], [1, 0], [0, 2]], ["A", "B", "C"],
        [[], [], []], 2⟩ [1, 0] 2 = res :: rest → res.distance = 0)) :=
  ⟨⟨rfl, by decide, by decide, by decide⟩,
    retrieve_topk_spec ⟨some [[0, 0], [1, 0], [0, 2]], ["A", "B", "C"],
        [[], [], []], 2⟩ [[0, 0], [1, 0], [0, 2]] [1, 0] 2 rfl
      (by decide) (by decide) (by decide)⟩

end FinanceY
